import Mathlib

/-!
Shallow embedding of `server.js` from the fortune-cookie repository, together
with theorems settling the specification claims about it.

The source is a small Express server with two endpoints:
- `GET /api/fortune` : a deterministic selector `hashString(seed) % fortunes.length`
  plus a seconds-until-midnight countdown;
- `POST /api/fortune-ai` : validation of `localDate`, a per-key in-memory cache,
  an external generation provider, output formatting, and a catch-all fallback.

JavaScript numbers on these code paths stay well inside the exactly-representable
integer range of IEEE doubles, so machine arithmetic is modelled with `Int`/`Nat`,
with explicit wrapping to signed 32-bit where the source uses `|= 0` or `<<`.
Strings are hashed by their UTF-16 code units (`charCodeAt`), modelled as `List Nat`.
-/

/-! ## Deterministic selector: `hashString` (server.js lines 26-30) -/

/-- Wrap an integer to the signed 32-bit range, as JavaScript's `| 0` does. -/
def toInt32 (n : Int) : Int :=
  (n + 2147483648) % 4294967296 - 2147483648

/-- One loop iteration of `hashString`:
`h = (h << 5) - h + s.charCodeAt(i); h |= 0;`.
In JavaScript `h << 5` wraps its result to signed 32-bit, i.e. `toInt32 (h * 32)`;
the subsequent subtraction and addition are exact in doubles and `|= 0` wraps again. -/
def hashStep (h : Int) (c : Nat) : Int :=
  toInt32 (toInt32 (h * 32) - h + (c : Int))

/-- `hashString` from server.js: fold the per-character step over the code units
starting from 0, then take `Math.abs` of the final signed 32-bit value. -/
def hashString (codes : List Nat) : Nat :=
  (codes.foldl hashStep 0).natAbs

/-- One step of the specification's reference algorithm:
`h = h*31 + charCode`, wrapped to signed 32-bit at each step. -/
def specHashStep (h : Int) (c : Nat) : Int :=
  toInt32 (h * 31 + (c : Int))

/-- The specification's reference hash: 32-bit rolling hash `h*31 + charCode`
wrapped to signed 32-bit at each step, absolute value of the final result. -/
def specRollingHash (codes : List Nat) : Nat :=
  (codes.foldl specHashStep 0).natAbs

/-- The fixed fortune catalog (server.js lines 19-24). -/
def fortunes : List String :=
  [ "A small step today becomes a milestone tomorrow.",
    "Your curiosity is your superpower.",
    "Luck favors the prepared mind.",
    "A door closes; a better one slides open." ]

/-- Catalog index computed by `GET /api/fortune` (server.js line 46):
`hashString(seed) % fortunes.length`. -/
def fortuneIndex (seedCodes : List Nat) : Nat :=
  hashString seedCodes % fortunes.length

/-! ## Seconds-until-next countdown (server.js lines 48-58)

The countdown parses `now.toLocaleString('en-US', { timeZone: tz })` back into a
`Date` (second precision, so milliseconds are zero), advances it to the next
local midnight with `setHours(24,0,0,0)`, and computes
`Math.max(0, Math.floor((next - local)/1000))`.  We model the resolved local
time by `s`, its number of whole seconds since the local midnight of its own
calendar day (so `0 ≤ s < 86400`), in a timezone without offset transitions;
then `next - local = 86400000 - 1000*s` milliseconds. -/

/-- `Math.max(0, Math.floor((next - local)/1000))` with `s` the parsed local
time's seconds since local midnight. -/
def secondsUntilNextVal (s : Nat) : Int :=
  max 0 ((86400000 - 1000 * (s : Int)) / 1000)

/-! ## `localDate` validation (server.js line 119): `/^\d{4}-\d{2}-\d{2}$/` -/

/-- ASCII digit test, the `\d` character class of the JavaScript regex. -/
def isAsciiDigit (c : Char) : Bool :=
  '0' ≤ c && c ≤ '9'

/-- The test `/^\d{4}-\d{2}-\d{2}$/.test(s)`: exactly ten characters,
four digits, a dash, two digits, a dash, two digits. -/
def isValidLocalDate (s : String) : Bool :=
  match s.data with
  | [y1, y2, y3, y4, d1, m1, m2, d2, a1, a2] =>
    isAsciiDigit y1 && isAsciiDigit y2 && isAsciiDigit y3 && isAsciiDigit y4 &&
    d1 == '-' && isAsciiDigit m1 && isAsciiDigit m2 &&
    d2 == '-' && isAsciiDigit a1 && isAsciiDigit a2
  | _ => false

/-! ## `formatFortune` (server.js lines 74-84) -/

/-- JavaScript whitespace as stripped by `String.prototype.trim`:
space, tab, line/paragraph separators, NBSP, BOM and the classic controls. -/
def isJsWhitespace (c : Char) : Bool :=
  c == ' ' || c == '\t' || c == '\n' || c == '\r' ||
  c == '\x0b' || c == '\x0c' || c == '\u00A0' || c == '\uFEFF' ||
  c == '\u2028' || c == '\u2029'

/-- `s.trim()`: drop JavaScript whitespace from both ends. -/
def jsTrim (cs : List Char) : List Char :=
  ((cs.dropWhile isJsWhitespace).reverse.dropWhile isJsWhitespace).reverse

/-- `s.replace(/\r/g, '')`: remove every carriage return. -/
def removeCR (cs : List Char) : List Char :=
  cs.filter (fun c => c != '\r')

/-- `s.split('\n')`: split on newlines, keeping empty segments. -/
def splitOnNewline (cs : List Char) : List (List Char) :=
  match cs with
  | [] => [[]]
  | c :: rest =>
    match splitOnNewline rest with
    | [] => [[c]]
    | seg :: segs => if c = '\n' then [] :: seg :: segs else (c :: seg) :: segs

/-- Per-line truncation `s.length > maxPerLine ? s.slice(0, maxPerLine - 1) + '…' : s`. -/
def truncLine (maxPerLine : Nat) (s : List Char) : List Char :=
  if maxPerLine < s.length then s.take (maxPerLine - 1) ++ ['…'] else s

/-- The cleaned input of `formatFortune`: carriage returns stripped, then trimmed. -/
def cleanedText (text : String) : List Char :=
  jsTrim (removeCR text.data)

/-- The line list of `formatFortune` before per-line truncation:
split on newlines, trim each line, drop empty lines, keep at most `lines`. -/
def preLines (text : String) (lines : Nat) : List (List Char) :=
  (((splitOnNewline (cleanedText text)).map jsTrim).filter (fun l => l ≠ [])).take lines

/-- `formatFortune(text, lines, maxPerLine)` from server.js lines 74-84. -/
def formatFortune (text : String) (lines : Nat) (maxPerLine : Nat) : String :=
  if cleanedText text = [] then ""
  else String.mk (List.intercalate ['\n'] ((preLines text lines).map (truncLine maxPerLine)))

/-! ## AI endpoint state and environment (server.js lines 64-151)

The handler is embedded as a pure function.  Effects are threaded explicitly:
the process-wide `aiCache` Map is an association list passed in and returned;
the two `Date.now()` readings (cache check on line 128, cache write on line 140)
and the outcome of `generateWithOpenAI` (which either throws — missing key,
network failure — or resolves to the extracted text, line 106's `content || ''`)
are supplied by an environment, as is the random id minted by `getOrSetUserId`
when no `fcid` cookie is present. -/

/-- A cache value `{ fortune, expiresAt }` (server.js line 64 comment, line 140). -/
structure CacheEntry where
  fortune : String
  expiresAt : Int
deriving Repr, DecidableEq

/-- The process-wide `aiCache` Map, as an association list (first match wins). -/
def Cache := List (String × CacheEntry)
deriving instance Repr, DecidableEq for Cache

/-- `aiCache.get(key)`. -/
def cacheGet (c : Cache) (k : String) : Option CacheEntry :=
  match c with
  | [] => none
  | (k1, e) :: rest => if k1 = k then some e else cacheGet rest k

/-- `aiCache.set(key, value)`: replace the binding if present, else append. -/
def cacheSet (c : Cache) (k : String) (e : CacheEntry) : Cache :=
  match c with
  | [] => [(k, e)]
  | (k1, e1) :: rest => if k1 = k then (k, e) :: rest else (k1, e1) :: cacheSet rest k e

/-- The JSON request body `{ lang, theme, lines, localDate }`; absent fields are
`none`.  `lines` arrives as a JSON integer (the client sends a number). -/
structure ReqBody where
  lang : Option String
  theme : Option String
  lines : Option Int
  localDate : Option String
deriving Repr, DecidableEq

/-- An incoming request: optional parsed body (`req.body`) and the
`fcid` cookie if the client presented one. -/
structure Request where
  body : Option ReqBody
  fcidCookie : Option String
deriving Repr, DecidableEq

/-- The ambient effects of one handler run: the `Date.now()` read at the cache
check (line 128), the `Date.now()` read at the cache write (line 140), the
provider outcome (`Except.error` models a thrown exception anywhere in
`generateWithOpenAI`), and the id minted when no cookie is present. -/
structure Env where
  nowCheck : Int
  nowSet : Int
  provider : Except Unit String
  freshId : String

/-- The JSON response of `POST /api/fortune-ai`.  `success` is sent with
`res.json` and therefore HTTP status 200; `cached` records whether the body
carried `cached: true` (it is present only on cache hits). -/
inductive AiResponse where
  | success (fortune : String) (cached : Bool) (source : String)
  | apiError (status : Nat) (error : String)
deriving Repr, DecidableEq

/-- Result of one handler run: the response, the cache afterwards, and whether
the run reached `aiCache.get` (line 127) and `generateWithOpenAI` (line 133). -/
structure Outcome where
  response : AiResponse
  cache : Cache
  cacheRead : Bool
  providerCalled : Bool
deriving Repr, DecidableEq

/-- `req.body || {}` (line 115): destructuring falls back to an empty object. -/
def bodyOf (req : Request) : ReqBody :=
  req.body.getD ⟨none, none, none, none⟩

/-- `lang = (lang === 'tr' ? 'tr' : 'en')` (line 116); the destructuring
default `'en'` is subsumed because any non-`'tr'` value normalizes to `'en'`. -/
def normLang (o : Option String) : String :=
  if o = some "tr" then "tr" else "en"

/-- `lines = Math.min(Math.max(parseInt(lines, 10) || 1, 1), 2)` (line 117)
applied to the destructuring default `lines = 2`: for an integer argument
`parseInt` is the identity and `|| 1` replaces 0 (the only falsy integer). -/
def clampLines (o : Option Int) : Nat :=
  (min (max (if o.getD 2 = 0 then 1 else o.getD 2) 1) 2).toNat

/-- `theme = 'relationship'` destructuring default (line 115). -/
def themeOf (req : Request) : String :=
  ((bodyOf req).theme).getD "relationship"

/-- `localDate || ''` (line 119): an absent field reads as the empty string. -/
def reqLocalDate (req : Request) : String :=
  ((bodyOf req).localDate).getD ""

/-- `getOrSetUserId` (lines 66-72): reuse the `fcid` cookie verbatim if
present, else use the freshly minted random id. -/
def userIdOf (env : Env) (req : Request) : String :=
  req.fcidCookie.getD env.freshId

/-- The composite cache key `${userId}:${lang}:${theme}:${lines}:${localDate}`
(line 125). -/
def mkKey (userId lang theme : String) (lines : Nat) (localDate : String) : String :=
  userId ++ ":" ++ lang ++ ":" ++ theme ++ ":" ++ toString lines ++ ":" ++ localDate

/-- The cache key this request uses (line 125). -/
def reqKey (env : Env) (req : Request) : String :=
  mkKey (userIdOf env req) (normLang (bodyOf req).lang) (themeOf req)
    (clampLines (bodyOf req).lines) (reqLocalDate req)

/-- `ttlMsFromLocalDate` (line 110): a constant ~26 hours, ignoring its argument. -/
def ttlMsFromLocalDate (_localDate : String) : Int :=
  26 * 3600 * 1000

/-- The static fallback line of the catch block (lines 146-148), chosen on the
raw `req.body?.lang`, not the normalized language. -/
def fallbackText (rawLang : Option String) : String :=
  if rawLang = some "tr" then "Bugün açık konuşmak bağınızı onarabilir."
  else "Speak plainly today; repair begins there."

/-- The generation path (lines 133-142): call the provider, format, reject an
empty formatted result with 502, otherwise cache and return; a thrown provider
error lands in the catch block (lines 143-150) and yields the fallback. -/
def generatePath (env : Env) (cache : Cache) (req : Request) : Outcome :=
  match env.provider with
  | Except.error _ =>
    ⟨AiResponse.success (fallbackText (bodyOf req).lang) false "fallback", cache, true, true⟩
  | Except.ok raw =>
    if formatFortune raw (clampLines (bodyOf req).lines) 140 = "" then
      ⟨AiResponse.apiError 502 "Empty AI result", cache, true, true⟩
    else
      ⟨AiResponse.success (formatFortune raw (clampLines (bodyOf req).lines) 140) false "openai",
        cacheSet cache (reqKey env req)
          ⟨formatFortune raw (clampLines (bodyOf req).lines) 140,
            env.nowSet + ttlMsFromLocalDate (reqLocalDate req)⟩,
        true, true⟩

/-- The cache lookup and hit test (lines 127-131):
`cached && cached.expiresAt > Date.now()`. -/
def afterValidation (env : Env) (cache : Cache) (req : Request) : Outcome :=
  match cacheGet cache (reqKey env req) with
  | some e =>
    if e.expiresAt > env.nowCheck then
      ⟨AiResponse.success e.fortune true "cache", cache, true, false⟩
    else generatePath env cache req
  | none => generatePath env cache req

/-- The `POST /api/fortune-ai` handler (lines 112-151). -/
def fortuneAiHandler (env : Env) (cache : Cache) (req : Request) : Outcome :=
  if isValidLocalDate (reqLocalDate req) then afterValidation env cache req
  else ⟨AiResponse.apiError 400 "localDate (YYYY-MM-DD) is required", cache, false, false⟩

/-- A sequence of handler runs against the process-wide cache. -/
def runSeq (cache : Cache) : List (Env × Request) → Cache
  | [] => cache
  | step :: rest => runSeq (fortuneAiHandler step.1 cache step.2).cache rest

/-! ## Helper lemmas -/

theorem hashStep_eq_specHashStep (h : Int) (c : Nat) : hashStep h c = specHashStep h c := by
  unfold hashStep specHashStep toInt32
  omega

theorem foldl_hashStep_eq (codes : List Nat) :
    ∀ h : Int, codes.foldl hashStep h = codes.foldl specHashStep h := by
  induction codes with
  | nil => intro h; rfl
  | cons c cs ih =>
    intro h
    simp only [List.foldl_cons, hashStep_eq_specHashStep]
    exact ih _

theorem cacheGet_cacheSet_self (c : Cache) (k : String) (e : CacheEntry) :
    cacheGet (cacheSet c k e) k = some e := by
  induction c with
  | nil => simp [cacheSet, cacheGet]
  | cons p rest ih =>
    obtain ⟨k1, e1⟩ := p
    by_cases h : k1 = k
    · simp [cacheSet, cacheGet, h]
    · simp [cacheSet, cacheGet, h, ih]

theorem cacheGet_cacheSet_cases (c : Cache) (k k1 : String) (e e1 : CacheEntry)
    (h : cacheGet (cacheSet c k e) k1 = some e1) :
    (k1 = k ∧ e1 = e) ∨ cacheGet c k1 = some e1 := by
  induction c with
  | nil =>
    simp only [cacheSet, cacheGet] at h
    by_cases hk : k = k1
    · rw [if_pos hk] at h
      exact Or.inl ⟨hk.symm, (Option.some.inj h).symm⟩
    · rw [if_neg hk] at h
      exact absurd h (by simp)
  | cons p rest ih =>
    obtain ⟨k2, e2⟩ := p
    by_cases hk2 : k2 = k
    · simp only [cacheSet, if_pos hk2, cacheGet] at h
      by_cases hk : k = k1
      · rw [if_pos hk] at h
        exact Or.inl ⟨hk.symm, (Option.some.inj h).symm⟩
      · rw [if_neg hk] at h
        right
        simp only [cacheGet, hk2, if_neg hk]
        exact h
    · simp only [cacheSet, if_neg hk2, cacheGet] at h
      by_cases hk : k2 = k1
      · rw [if_pos hk] at h
        right
        simp only [cacheGet, if_pos hk]
        exact h
      · rw [if_neg hk] at h
        rcases ih h with h1 | h2
        · exact Or.inl h1
        · right
          simp only [cacheGet, if_neg hk]
          exact h2

theorem fortuneAiHandler_of_valid (env : Env) (cache : Cache) (req : Request)
    (hv : isValidLocalDate (reqLocalDate req) = true) :
    fortuneAiHandler env cache req = afterValidation env cache req := by
  simp [fortuneAiHandler, hv]

theorem afterValidation_miss (env : Env) (cache : Cache) (req : Request)
    (hmiss : ∀ e, cacheGet cache (reqKey env req) = some e → ¬ e.expiresAt > env.nowCheck) :
    afterValidation env cache req = generatePath env cache req := by
  unfold afterValidation
  cases hc : cacheGet cache (reqKey env req) with
  | none => rfl
  | some e => simp [hmiss e hc]

theorem reqKey_of_userId_eq (env1 env2 : Env) (req : Request)
    (hu : userIdOf env2 req = userIdOf env1 req) :
    reqKey env2 req = reqKey env1 req := by
  unfold reqKey
  rw [hu]

theorem handler_new_entries (env : Env) (cache : Cache) (req : Request)
    (k : String) (e : CacheEntry)
    (h : cacheGet (fortuneAiHandler env cache req).cache k = some e) :
    cacheGet cache k = some e ∨ e.expiresAt = env.nowSet + 26 * 3600 * 1000 := by
  unfold fortuneAiHandler at h
  split at h
  · unfold afterValidation at h
    split at h
    · rename_i e1 he1
      split at h
      · exact Or.inl h
      · unfold generatePath at h
        split at h
        · exact Or.inl h
        · split at h
          · exact Or.inl h
          · rcases cacheGet_cacheSet_cases _ _ _ _ _ h with ⟨_, he⟩ | h2
            · subst he
              exact Or.inr rfl
            · exact Or.inl h2
    · unfold generatePath at h
      split at h
      · exact Or.inl h
      · split at h
        · exact Or.inl h
        · rcases cacheGet_cacheSet_cases _ _ _ _ _ h with ⟨_, he⟩ | h2
          · subst he
            exact Or.inr rfl
          · exact Or.inl h2
  · exact Or.inl h

theorem runSeq_new_entries (steps : List (Env × Request)) :
    ∀ (cache : Cache) (k : String) (e : CacheEntry),
      cacheGet (runSeq cache steps) k = some e →
      cacheGet cache k = some e ∨
        ∃ s ∈ steps, e.expiresAt = s.1.nowSet + 26 * 3600 * 1000 := by
  induction steps with
  | nil => exact fun cache k e h => Or.inl h
  | cons st rest ih =>
    intro cache k e h
    simp only [runSeq] at h
    rcases ih _ k e h with h1 | ⟨s, hs, he⟩
    · rcases handler_new_entries st.1 cache st.2 k e h1 with h2 | he
      · exact Or.inl h2
      · exact Or.inr ⟨st, List.mem_cons_self st rest, he⟩
    · exact Or.inr ⟨s, List.mem_cons_of_mem st hs, he⟩

theorem mem_of_mem_dropWhile {p : Char → Bool} {c : Char} :
    ∀ {l : List Char}, c ∈ l.dropWhile p → c ∈ l := by
  intro l
  induction l with
  | nil => exact fun h => h
  | cons a t ih =>
    intro h
    rw [List.dropWhile_cons] at h
    by_cases hp : p a = true
    · rw [if_pos hp] at h
      exact List.mem_cons_of_mem a (ih h)
    · rw [if_neg hp] at h
      exact h

theorem mem_of_mem_jsTrim {c : Char} {l : List Char} (h : c ∈ jsTrim l) : c ∈ l := by
  unfold jsTrim at h
  rw [List.mem_reverse] at h
  have h1 := mem_of_mem_dropWhile h
  rw [List.mem_reverse] at h1
  exact mem_of_mem_dropWhile h1

theorem splitOnNewline_ne_nil (cs : List Char) : splitOnNewline cs ≠ [] := by
  cases cs with
  | nil => simp [splitOnNewline]
  | cons a rest =>
    unfold splitOnNewline
    cases splitOnNewline rest with
    | nil => simp
    | cons seg segs =>
      by_cases h : a = '\n' <;> simp [h]

theorem splitOnNewline_mem :
    ∀ (cs : List Char) (seg : List Char), seg ∈ splitOnNewline cs →
      ∀ c ∈ seg, c ∈ cs ∧ c ≠ '\n' := by
  intro cs
  induction cs with
  | nil =>
    intro seg hs c hc
    simp [splitOnNewline] at hs
    subst hs
    exact absurd hc (by simp)
  | cons a rest ih =>
    intro seg hs c hc
    unfold splitOnNewline at hs
    rcases hr : splitOnNewline rest with _ | ⟨seg0, segs⟩
    · exact absurd hr (splitOnNewline_ne_nil rest)
    · rw [hr] at hs
      dsimp only at hs
      by_cases ha : a = '\n'
      · rw [if_pos ha] at hs
        rcases List.mem_cons.mp hs with h1 | h2
        · subst h1
          exact absurd hc (by simp)
        · have := ih seg (hr ▸ h2) c hc
          exact ⟨List.mem_cons_of_mem a this.1, this.2⟩
      · rw [if_neg ha] at hs
        rcases List.mem_cons.mp hs with h1 | h2
        · subst h1
          rcases List.mem_cons.mp hc with h3 | h4
          · subst h3
            exact ⟨List.mem_cons_self c rest, ha⟩
          · have := ih seg0 (hr ▸ List.mem_cons_self seg0 segs) c h4
            exact ⟨List.mem_cons_of_mem a this.1, this.2⟩
        · have := ih seg (hr ▸ List.mem_cons_of_mem seg0 h2) c hc
          exact ⟨List.mem_cons_of_mem a this.1, this.2⟩

theorem mem_preLines_shape {text : String} {n : Nat} {l : List Char}
    (hl : l ∈ preLines text n) :
    l ≠ [] ∧ ∀ c ∈ l, c ∈ cleanedText text ∧ c ≠ '\n' := by
  unfold preLines at hl
  have hl1 := List.mem_of_mem_take hl
  have hl2 := List.mem_filter.mp hl1
  refine ⟨by simpa using hl2.2, ?_⟩
  rcases List.mem_map.mp hl2.1 with ⟨seg, hseg, rfl⟩
  intro c hc
  have hcseg := mem_of_mem_jsTrim hc
  exact splitOnNewline_mem _ seg hseg c hcseg

/-! ## Claim theorems -/

/-- C3: for every seed (any date, IP, user-agent input, as a list of UTF-16
code units), the selector's computed catalog index `hashString(seed) %
fortunes.length` lies in `[0, fortunes.length)`, and the catalog is a fixed
non-empty list. -/
theorem fortuneIndex_in_range (seedCodes : List Nat) :
    fortunes ≠ [] ∧ 0 ≤ fortuneIndex seedCodes ∧ fortuneIndex seedCodes < fortunes.length := by
  refine ⟨by decide, Nat.zero_le _, ?_⟩
  unfold fortuneIndex
  exact Nat.mod_lt _ (by decide)

/-- C4: for every input (as a list of UTF-16 code units), the implemented hash
(per character `h = (h << 5) - h + charCode; h |= 0`, final `Math.abs`)
computes exactly the specification's reference algorithm (per character
`h = h*31 + charCode` wrapped to signed 32-bit, final absolute value). -/
theorem hashString_eq_specRollingHash (codes : List Nat) :
    hashString codes = specRollingHash codes := by
  unfold hashString specRollingHash
  rw [foldl_hashStep_eq]

/-- C9 counterexample: at a clock instant whose resolved local time is exactly
local midnight (0 seconds past midnight), the countdown computed by the handler
is 86400, so it is not strictly below 86400. -/
theorem secondsUntilNextVal_at_midnight :
    secondsUntilNextVal 0 = 86400 ∧ ¬ secondsUntilNextVal 0 < 86400 := by
  constructor <;> decide

/-- C9 amended: for every resolved local time (`s` whole seconds past local
midnight, `s < 86400`), the returned `secondsUntilNext` is an integer with
`0 ≤ secondsUntilNextVal s` and `secondsUntilNextVal s ≤ 86400`. -/
theorem secondsUntilNextVal_bounds (s : Nat) (hs : s < 86400) :
    0 ≤ secondsUntilNextVal s ∧ secondsUntilNextVal s ≤ 86400 := by
  unfold secondsUntilNextVal
  refine ⟨le_max_left 0 _, max_le (by norm_num) ?_⟩
  omega

/-- C9 amended witness at `s = 12345`. -/
theorem secondsUntilNextVal_bounds_witness :
    12345 < 86400 ∧ 0 ≤ secondsUntilNextVal 12345 ∧ secondsUntilNextVal 12345 ≤ 86400 :=
  ⟨by decide, secondsUntilNextVal_bounds 12345 (by decide)⟩

/-- C10: the composite cache key is not injective: the tuples
(userId "a:en:b", theme "c") and (userId "a", theme "b:en:c"), with the same
lang, lines and localDate, produce the same key string, and two requests
carrying those cookies and themes share one cache entry: after the first
request populates the cache, the second is answered from it with
source "cache" even though its provider would fail. -/
theorem cacheKey_not_injective :
    mkKey "a:en:b" "en" "c" 2 "2024-01-01" = mkKey "a" "en" "b:en:c" 2 "2024-01-01"
    ∧ ("a:en:b", "c") ≠ (("a", "b:en:c") : String × String)
    ∧ (fortuneAiHandler ⟨8, 9, Except.error (), "f2"⟩
        (fortuneAiHandler ⟨5, 7, Except.ok "Hello all", "f1"⟩ []
          ⟨some ⟨some "en", some "c", some 2, some "2024-01-01"⟩, some "a:en:b"⟩).cache
        ⟨some ⟨some "en", some "b:en:c", some 2, some "2024-01-01"⟩, some "a"⟩).response
      = AiResponse.success "Hello all" true "cache" := by
  refine ⟨by decide, by decide, by decide⟩

/-- C2: when the request body's localDate is absent or fails the
`^\d{4}-\d{2}-\d{2}$` test, the handler answers 400 with the exact error body,
leaves the cache untouched, and reaches neither the cache lookup nor the
generation provider. -/
theorem invalid_localDate_rejected (env : Env) (cache : Cache) (req : Request)
    (h : ∀ s, (bodyOf req).localDate = some s → isValidLocalDate s = false) :
    fortuneAiHandler env cache req =
      ⟨AiResponse.apiError 400 "localDate (YYYY-MM-DD) is required", cache, false, false⟩ := by
  have hv : isValidLocalDate (reqLocalDate req) = false := by
    unfold reqLocalDate
    cases hb : (bodyOf req).localDate with
    | none => rfl
    | some s => simpa using h s hb
  simp [fortuneAiHandler, hv]

/-- C2 witness: a request carrying `localDate = "2024/01/01"` is rejected with
400 and an unchanged cache. -/
theorem invalid_localDate_rejected_witness :
    fortuneAiHandler ⟨0, 0, Except.ok "x", "f"⟩ [("k", ⟨"t", 5⟩)]
        ⟨some ⟨none, none, none, some "2024/01/01"⟩, some "u"⟩ =
      ⟨AiResponse.apiError 400 "localDate (YYYY-MM-DD) is required",
        [("k", ⟨"t", 5⟩)], false, false⟩ :=
  invalid_localDate_rejected _ _ _ (fun s hs => by
    have h2 : some "2024/01/01" = some s := hs
    have h3 : s = "2024/01/01" := (Option.some.inj h2).symm
    subst h3
    decide)

/-- C1: first, a request whose key has an unexpired cache entry is answered
with that entry's stored text, cached flag and source "cache", with the cache
unchanged and the provider not invoked; second, after a successful generation,
an identical request (same user id, within the TTL window) is answered from
the cache with text identical to the first response, without invoking the
provider. -/
theorem cache_hit_returns_cached :
    (∀ (env : Env) (cache : Cache) (req : Request) (e : CacheEntry),
        isValidLocalDate (reqLocalDate req) = true →
        cacheGet cache (reqKey env req) = some e →
        e.expiresAt > env.nowCheck →
        fortuneAiHandler env cache req =
          ⟨AiResponse.success e.fortune true "cache", cache, true, false⟩)
    ∧ (∀ (env1 env2 : Env) (cache : Cache) (req : Request) (raw : String),
        isValidLocalDate (reqLocalDate req) = true →
        (∀ e, cacheGet cache (reqKey env1 req) = some e → ¬ e.expiresAt > env1.nowCheck) →
        env1.provider = Except.ok raw →
        formatFortune raw (clampLines (bodyOf req).lines) 140 ≠ "" →
        userIdOf env2 req = userIdOf env1 req →
        env2.nowCheck < env1.nowSet + ttlMsFromLocalDate (reqLocalDate req) →
        (fortuneAiHandler env1 cache req).response =
          AiResponse.success (formatFortune raw (clampLines (bodyOf req).lines) 140) false "openai"
        ∧ (fortuneAiHandler env2 (fortuneAiHandler env1 cache req).cache req).response =
          AiResponse.success (formatFortune raw (clampLines (bodyOf req).lines) 140) true "cache"
        ∧ (fortuneAiHandler env2 (fortuneAiHandler env1 cache req).cache req).providerCalled
          = false) := by
  have parta : ∀ (env : Env) (cache : Cache) (req : Request) (e : CacheEntry),
      isValidLocalDate (reqLocalDate req) = true →
      cacheGet cache (reqKey env req) = some e →
      e.expiresAt > env.nowCheck →
      fortuneAiHandler env cache req =
        ⟨AiResponse.success e.fortune true "cache", cache, true, false⟩ := by
    intro env cache req e hv hc he
    rw [fortuneAiHandler_of_valid env cache req hv]
    unfold afterValidation
    rw [hc]
    dsimp only
    rw [if_pos he]
  refine ⟨parta, ?_⟩
  intro env1 env2 cache req raw hv hmiss hp hne hu ht
  have hkey : reqKey env2 req = reqKey env1 req := reqKey_of_userId_eq env1 env2 req hu
  have h1 : fortuneAiHandler env1 cache req =
      ⟨AiResponse.success (formatFortune raw (clampLines (bodyOf req).lines) 140) false "openai",
        cacheSet cache (reqKey env1 req)
          ⟨formatFortune raw (clampLines (bodyOf req).lines) 140,
            env1.nowSet + ttlMsFromLocalDate (reqLocalDate req)⟩,
        true, true⟩ := by
    rw [fortuneAiHandler_of_valid env1 cache req hv, afterValidation_miss env1 cache req hmiss]
    unfold generatePath
    rw [hp]
    dsimp only
    rw [if_neg hne]
  have h2 := parta env2 (fortuneAiHandler env1 cache req).cache req
      ⟨formatFortune raw (clampLines (bodyOf req).lines) 140,
        env1.nowSet + ttlMsFromLocalDate (reqLocalDate req)⟩ hv
      (by rw [h1, hkey]; exact cacheGet_cacheSet_self _ _ _) ht
  refine ⟨by rw [h1], by rw [h2], by rw [h2]⟩

/-- C1 witness: a hit on a prefilled cache is served from it, and a freshly
generated fortune is returned verbatim from the cache on the identical
follow-up request. -/
theorem cache_hit_returns_cached_witness :
    (fortuneAiHandler ⟨5, 7, Except.ok "x", "f"⟩
        [("u:en:relationship:2:2024-01-01", ⟨"Hi", 100⟩)]
        ⟨some ⟨none, none, none, some "2024-01-01"⟩, some "u"⟩ =
      ⟨AiResponse.success "Hi" true "cache",
        [("u:en:relationship:2:2024-01-01", ⟨"Hi", 100⟩)], true, false⟩)
    ∧ (fortuneAiHandler ⟨8, 9, Except.error (), "g"⟩
          (fortuneAiHandler ⟨5, 7, Except.ok "Hello", "f"⟩ []
            ⟨some ⟨none, none, none, some "2024-01-01"⟩, some "u"⟩).cache
          ⟨some ⟨none, none, none, some "2024-01-01"⟩, some "u"⟩).response =
        AiResponse.success "Hello" true "cache" :=
  ⟨cache_hit_returns_cached.1 ⟨5, 7, Except.ok "x", "f"⟩
      [("u:en:relationship:2:2024-01-01", ⟨"Hi", 100⟩)]
      ⟨some ⟨none, none, none, some "2024-01-01"⟩, some "u"⟩ ⟨"Hi", 100⟩
      (by decide) (by decide) (by decide),
    (cache_hit_returns_cached.2 ⟨5, 7, Except.ok "Hello", "f"⟩ ⟨8, 9, Except.error (), "g"⟩ []
      ⟨some ⟨none, none, none, some "2024-01-01"⟩, some "u"⟩ "Hello"
      (by decide) (fun e he => by simp [cacheGet] at he) rfl (by decide) rfl
      (by decide)).2.1⟩

/-- C6: when the generation path is reached (valid date, no unexpired cache
entry) and the provider call throws, the handler answers with a 200 success
response tagged source "fallback" whose text is the static language-dependent
line (Turkish when the raw request lang is "tr", else English) and non-empty. -/
theorem provider_error_fallback (env : Env) (cache : Cache) (req : Request)
    (hv : isValidLocalDate (reqLocalDate req) = true)
    (hmiss : ∀ e, cacheGet cache (reqKey env req) = some e → ¬ e.expiresAt > env.nowCheck)
    (hp : env.provider = Except.error ()) :
    (fortuneAiHandler env cache req).response =
      AiResponse.success (fallbackText (bodyOf req).lang) false "fallback"
    ∧ fallbackText (bodyOf req).lang ≠ "" := by
  constructor
  · rw [fortuneAiHandler_of_valid env cache req hv, afterValidation_miss env cache req hmiss]
    unfold generatePath
    rw [hp]
  · unfold fallbackText
    split
    · decide
    · decide

/-- C6 witness: a Turkish request on an empty cache with a throwing provider
gets the Turkish fallback line. -/
theorem provider_error_fallback_witness :
    (fortuneAiHandler ⟨0, 0, Except.error (), "f"⟩ []
        ⟨some ⟨some "tr", none, none, some "2024-01-01"⟩, some "u"⟩).response =
      AiResponse.success "Bugün açık konuşmak bağınızı onarabilir." false "fallback"
    ∧ ("Bugün açık konuşmak bağınızı onarabilir." : String) ≠ "" :=
  provider_error_fallback ⟨0, 0, Except.error (), "f"⟩ []
    ⟨some ⟨some "tr", none, none, some "2024-01-01"⟩, some "u"⟩
    (by decide) (fun e he => by simp [cacheGet] at he) rfl

/-- C7: when the generation path is reached and the provider's text formats to
the empty string, the handler answers 502 with body error "Empty AI result"
(distinct from the 400 client-error response) and writes nothing to the cache. -/
theorem empty_result_rejected (env : Env) (cache : Cache) (req : Request) (raw : String)
    (hv : isValidLocalDate (reqLocalDate req) = true)
    (hmiss : ∀ e, cacheGet cache (reqKey env req) = some e → ¬ e.expiresAt > env.nowCheck)
    (hp : env.provider = Except.ok raw)
    (hempty : formatFortune raw (clampLines (bodyOf req).lines) 140 = "") :
    fortuneAiHandler env cache req =
      ⟨AiResponse.apiError 502 "Empty AI result", cache, true, true⟩
    ∧ (AiResponse.apiError 502 "Empty AI result" ≠
        AiResponse.apiError 400 "localDate (YYYY-MM-DD) is required") := by
  refine ⟨?_, by decide⟩
  rw [fortuneAiHandler_of_valid env cache req hv, afterValidation_miss env cache req hmiss]
  unfold generatePath
  rw [hp]
  dsimp only
  rw [if_pos hempty]

/-- C7 witness: a provider answer of pure whitespace formats to "" and is
answered 502 with the cache unchanged. -/
theorem empty_result_rejected_witness :
    fortuneAiHandler ⟨0, 0, Except.ok "  \n  ", "f"⟩ []
        ⟨some ⟨none, none, none, some "2024-01-01"⟩, some "u"⟩ =
      ⟨AiResponse.apiError 502 "Empty AI result", [], true, true⟩ :=
  (empty_result_rejected ⟨0, 0, Except.ok "  \n  ", "f"⟩ []
      ⟨some ⟨none, none, none, some "2024-01-01"⟩, some "u"⟩ "  \n  "
      (by decide) (fun e he => by simp [cacheGet] at he) rfl (by decide)).1

/-- C8: `ttlMsFromLocalDate` is the fixed constant 26 hours regardless of the
caller-supplied localDate, and after any sequence of requests starting from the
empty process cache, every stored entry's `expiresAt` equals the creating
step's write-time clock reading plus that fixed TTL. -/
theorem cache_ttl_invariant :
    (∀ d : String, ttlMsFromLocalDate d = 26 * 3600 * 1000)
    ∧ ∀ (steps : List (Env × Request)) (k : String) (e : CacheEntry),
        cacheGet (runSeq [] steps) k = some e →
        ∃ s ∈ steps, e.expiresAt = s.1.nowSet + 26 * 3600 * 1000 := by
  refine ⟨fun _ => rfl, fun steps k e h => ?_⟩
  rcases runSeq_new_entries steps [] k e h with h1 | h2
  · simp [cacheGet] at h1
  · exact h2

/-- C8 witness: the entry created by one successful generation at write-time 7
expires at 7 + 26 hours. -/
theorem cache_ttl_invariant_witness :
    ∃ s ∈ [((⟨5, 7, Except.ok "Hello", "f"⟩ : Env),
            (⟨some ⟨none, none, none, some "2024-01-01"⟩, some "u"⟩ : Request))],
      (⟨"Hello", 93600007⟩ : CacheEntry).expiresAt = s.1.nowSet + 26 * 3600 * 1000 :=
  cache_ttl_invariant.2
    [(⟨5, 7, Except.ok "Hello", "f"⟩, ⟨some ⟨none, none, none, some "2024-01-01"⟩, some "u"⟩)]
    "u:en:relationship:2:2024-01-01" ⟨"Hello", 93600007⟩ (by decide)

/-- C5: the formatted fortune keeps at most the requested number of lines;
every kept line is non-empty and free of carriage returns and newlines; the
per-line truncation never exceeds 140 characters and appends the ellipsis
marker exactly when the line was longer than 140 (leaving shorter lines
untouched); and the result is the newline-join of the truncated lines (empty
when the cleaned input is empty). -/
theorem formatFortune_spec (text : String) (n : Nat) :
    (preLines text n).length ≤ n
    ∧ (∀ l ∈ preLines text n, l ≠ [] ∧ '\r' ∉ l ∧ '\n' ∉ l)
    ∧ (∀ l : List Char,
        (truncLine 140 l).length ≤ 140
        ∧ (140 < l.length →
            truncLine 140 l = l.take 139 ++ ['…']
            ∧ (truncLine 140 l).length = 140
            ∧ (truncLine 140 l).getLast? = some '…')
        ∧ (l.length ≤ 140 → truncLine 140 l = l))
    ∧ (cleanedText text = [] → formatFortune text n 140 = "")
    ∧ (cleanedText text ≠ [] →
        formatFortune text n 140 =
          String.mk (List.intercalate ['\n'] ((preLines text n).map (truncLine 140)))) := by
  refine ⟨?_, ?_, ?_, ?_, ?_⟩
  · unfold preLines
    exact List.length_take_le n _
  · intro l hl
    obtain ⟨hne, hprop⟩ := mem_preLines_shape hl
    refine ⟨hne, ?_, ?_⟩
    · intro hr
      have h1 := (hprop _ hr).1
      unfold cleanedText at h1
      have h2 := mem_of_mem_jsTrim h1
      unfold removeCR at h2
      rw [List.mem_filter] at h2
      simp at h2
    · intro hn
      exact (hprop _ hn).2 rfl
  · intro l
    unfold truncLine
    by_cases h : 140 < l.length
    · rw [if_pos h]
      have hlen : (l.take 139 ++ ['…']).length = 140 := by
        simp [List.length_take]
        omega
      refine ⟨le_of_eq hlen, fun _ => ⟨rfl, hlen, ?_⟩, fun hle => absurd h (by omega)⟩
      simp [List.getLast?_concat]
    · rw [if_neg h]
      exact ⟨by omega, fun hc => absurd hc h, fun _ => rfl⟩
  · intro h
    unfold formatFortune
    rw [if_pos h]
  · intro h
    unfold formatFortune
    rw [if_neg h]

/-- C5 witness: on a concrete two-line input, the kept first line is non-empty
and free of control characters, and the handler output is the newline-join of
the truncated kept lines. -/
theorem formatFortune_spec_witness :
    ("hi".data ≠ [] ∧ '\r' ∉ "hi".data ∧ '\n' ∉ "hi".data)
    ∧ formatFortune "hi\nthere" 2 140 =
        String.mk (List.intercalate ['\n'] ((preLines "hi\nthere" 2).map (truncLine 140))) :=
  ⟨(formatFortune_spec "hi\nthere" 2).2.1 "hi".data (by decide),
    (formatFortune_spec "hi\nthere" 2).2.2.2.2 (by decide)⟩
